import Mathlib

/-!
# Verification of the per-client HTTP rate limiter

Shallow embedding of `internal/infrastructure/http/middleware/ratelimit.go`.

Modelling conventions:
* Go strings (byte sequences; all the data handled here is ASCII) are
  modelled as `List Char`.
* `time.Time` and `time.Duration` are modelled as `Int` nanosecond counts
  (Go stores both as integer nanoseconds); `t.Sub(u)` is `t - u`,
  `t.Add(d)` is `t + d`.
* The Go map `clients map[string]*clientInfo` is modelled as an
  association list; in-place mutation through the `*clientInfo` pointer is
  modelled by writing the updated bucket back at its key.
* Each `time.Now()` read is a separate parameter of the function that
  performs it, so theorems quantify over all interleavings of clock reads.
-/

namespace RateLimit

/-- Go strings modelled as character lists. -/
abbrev Str := List Char

/-- `RateLimitConfig` from ratelimit.go: requests-per-window capacity,
window duration (nanoseconds), and the exact-match trusted proxy list. -/
structure RateLimitConfig where
  requestsPerMinute : Int
  window : Int
  trustedProxies : List Str
deriving DecidableEq

/-- `clientInfo` from ratelimit.go (the per-client bucket): remaining
tokens and the window-start timestamp `lastRefill` (nanoseconds).
The mutex field is not part of the functional state. -/
structure ClientInfo where
  tokens : Int
  lastRefill : Int
deriving DecidableEq

/-- The `clients` map of `rateLimiter`, as an association list. -/
abbrev Store := List (Str × ClientInfo)

/-- Map lookup, `rl.clients[ip]` with its `exists` flag folded into `Option`. -/
def lookup (k : Str) : Store → Option ClientInfo
  | [] => none
  | (k1, b) :: rest => if k = k1 then some b else lookup k rest

/-- Map assignment `rl.clients[ip] = client`: replace the binding if the key
is present, append it otherwise. -/
def setEntry (k : Str) (b : ClientInfo) : Store → Store
  | [] => [(k, b)]
  | (k1, b1) :: rest => if k = k1 then (k, b) :: rest else (k1, b1) :: setEntry k b rest

/-- The fresh bucket built inside `getOrCreateClient`:
`tokens = RequestsPerMinute`, `lastRefill = time.Now()`. -/
def newClient (cfg : RateLimitConfig) (now : Int) : ClientInfo :=
  { tokens := cfg.requestsPerMinute, lastRefill := now }

/-- `getOrCreateClient` from ratelimit.go: return the existing bucket for
`ip`, or insert a fresh full one (`now` is the `time.Now()` read taken at
creation).  The double-checked locking of the original collapses to a
single lookup in this sequential model. -/
def getOrCreateClient (cfg : RateLimitConfig) (st : Store) (ip : Str) (now : Int) :
    ClientInfo × Store :=
  match lookup ip st with
  | some client => (client, st)
  | none =>
    let client := newClient cfg now
    (client, setEntry ip client st)

/-- The body of `allow` that runs under the bucket's lock: refill on window
expiry, compute the reset time, then admit/deny.  Returns
`((allowed, remaining, resetTime), updated bucket)`. -/
def allowClient (cfg : RateLimitConfig) (client : ClientInfo) (now : Int) :
    (Bool × Int × Int) × ClientInfo :=
  -- if now.Sub(client.lastRefill) >= rl.config.Window { refill }
  let client :=
    if cfg.window ≤ now - client.lastRefill then
      { tokens := cfg.requestsPerMinute, lastRefill := now }
    else client
  -- resetTime = client.lastRefill.Add(rl.config.Window)
  let resetTime := client.lastRefill + cfg.window
  if 0 < client.tokens then
    ((true, client.tokens - 1, resetTime), { client with tokens := client.tokens - 1 })
  else
    ((false, 0, resetTime), client)

/-- `allow` from ratelimit.go: fetch/create the bucket, then run the locked
decision.  `tCreate` is the `time.Now()` read inside `getOrCreateClient`,
`tNow` the one inside `allow`. -/
def allow (cfg : RateLimitConfig) (st : Store) (ip : Str) (tCreate tNow : Int) :
    (Bool × Int × Int) × Store :=
  let (client, st1) := getOrCreateClient cfg st ip tCreate
  let (res, client1) := allowClient cfg client tNow
  (res, setEntry ip client1 st1)

/-- One pass of the loop body inside `cleanup`: delete every entry with
`now.Sub(client.lastRefill) > rl.config.Window*2`, keep the rest untouched. -/
def cleanupPass (cfg : RateLimitConfig) (now : Int) : Store → Store
  | [] => []
  | (k, b) :: rest =>
    if cfg.window * 2 < now - b.lastRefill then cleanupPass cfg now rest
    else (k, b) :: cleanupPass cfg now rest

/-- `isTrustedProxy` from ratelimit.go: exact string membership. -/
def isTrustedProxy (ip : Str) : List Str → Bool
  | [] => false
  | trusted :: rest => if ip = trusted then true else isTrustedProxy ip rest

/-- The byte test used by `trimSpace` in ratelimit.go. -/
def isSpaceChar (c : Char) : Bool :=
  c = ' ' || c = '\t' || c = '\n' || c = '\r'

/-- `trimSpace` from ratelimit.go: strip leading and trailing
space/tab/newline/carriage-return characters. -/
def trimSpace (s : Str) : Str :=
  ((s.dropWhile isSpaceChar).reverse.dropWhile isSpaceChar).reverse

/-- Accumulator loop of `splitString`: cut the input at every separator
occurrence, emitting the final segment at the end of the input. -/
def splitStringAux (sep : Char) : Str → Str → List Str
  | [], acc => [acc.reverse]
  | c :: cs, acc =>
    if c = sep then acc.reverse :: splitStringAux sep cs []
    else splitStringAux sep cs (c :: acc)

/-- `splitString` from ratelimit.go (its only call site uses the
one-character separator `","`): empty input gives no segments, otherwise
split at every separator occurrence. -/
def splitString (s : Str) (sep : Char) : List Str :=
  if s = [] then [] else splitStringAux sep s []

/-- `splitAndTrim` from ratelimit.go: split, trim each part, keep only the
non-empty results, preserving order. -/
def splitAndTrim (s : Str) (sep : Char) : List Str :=
  ((splitString s sep).map trimSpace).filter (fun t => !t.isEmpty)

/-- The `X-Forwarded-For` block of `extractIP`: when the header is
non-empty, split-and-trim it and return the first segment when that
segment exists and is non-empty; `none` means fall through. -/
def firstForwarded (xff : Str) : Option Str :=
  if xff ≠ [] then
    match splitAndTrim xff ',' with
    | ip0 :: _ => if ip0 ≠ [] then some ip0 else none
    | [] => none
  else none

/-- `extractIP` from ratelimit.go, taken after the `net.SplitHostPort`
step: `remoteIP` is the peer address with any port suffix already
stripped.  Absent headers are the empty string, as returned by
`http.Header.Get`. -/
def extractIP (remoteIP xff xri : Str) (trustedProxies : List Str) : Str :=
  if !(isTrustedProxy remoteIP trustedProxies) then remoteIP
  else
    match firstForwarded xff with
    | some ip0 => ip0
    | none => if xri ≠ [] then xri else remoteIP

/-- Models `int(d.Seconds())` for a duration of `ns` nanoseconds: Go
converts to a `float64` second count and truncates toward zero.  For the
magnitudes involved (well below 2^53 nanoseconds) the float division is
exact whenever the second count is, and truncation of the correctly
rounded quotient coincides with truncated integer division. -/
def goTruncSeconds (ns : Int) : Int :=
  Int.tdiv ns 1000000000

/-- Models `t.Unix()` for a timestamp of `ns` nanoseconds since the epoch:
floor division to whole seconds. -/
def goUnixSeconds (ns : Int) : Int :=
  Int.fdiv ns 1000000000

/-- Modelled from the spec: the retry-after value the spec prescribes,
`ceil(resetAt - now)` in seconds, for comparison with what the code
computes. -/
def specCeilSeconds (ns : Int) : Int :=
  -(Int.fdiv (-ns) 1000000000)

/-- Decimal rendering of an integer, `strconv.Itoa` / `%d`. -/
def intToStr (n : Int) : Str :=
  (toString n).toList

/-- The denial body written by `http.Error` (which appends a newline):
`"Rate limit exceeded. Try again in %d seconds."`. -/
def denialBody (retryAfter : Int) : Str :=
  "Rate limit exceeded. Try again in ".toList ++ intToStr retryAfter
    ++ " seconds.".toList ++ ['\n']

/-- The observable outcome of one request through the middleware: status
code (200 stands for whatever the downstream handler produces), the three
always-set quota headers, the denial-only `Retry-After` header, the body
written by the middleware itself, and whether the downstream handler ran. -/
structure Response where
  status : Nat
  limitHeader : Str
  remainingHeader : Str
  resetHeader : Str
  retryAfter : Option Str
  body : Str
  nextCalled : Bool
deriving DecidableEq

/-- The per-request handler built by `RateLimitMiddleware`: resolve the
client key, consult `allow`, set the quota headers, and either deny with
429 or forward to the downstream handler.  `tCreate`, `tNow`, `tRetry` are
the three successive `time.Now()` reads (bucket creation, decision,
`time.Until(resetTime)`). -/
def rateLimitMiddleware (cfg : RateLimitConfig) (st : Store) (remoteIP xff xri : Str)
    (tCreate tNow tRetry : Int) : Response × Store :=
  let ip := extractIP remoteIP xff xri cfg.trustedProxies
  let (res, st1) := allow cfg st ip tCreate tNow
  let allowed := res.1
  let remaining := res.2.1
  let resetTime := res.2.2
  if !allowed then
    let retryAfter := goTruncSeconds (resetTime - tRetry)
    ({ status := 429
       limitHeader := intToStr cfg.requestsPerMinute
       remainingHeader := intToStr remaining
       resetHeader := intToStr (goUnixSeconds resetTime)
       retryAfter := some (intToStr retryAfter)
       body := denialBody retryAfter
       nextCalled := false }, st1)
  else
    ({ status := 200
       limitHeader := intToStr cfg.requestsPerMinute
       remainingHeader := intToStr remaining
       resetHeader := intToStr (goUnixSeconds resetTime)
       retryAfter := none
       body := []
       nextCalled := true }, st1)

/-- Iterate `allowClient` over a list of decision times against one bucket,
collecting each call's result (models a back-to-back request sequence for
one client key whose bucket already exists). -/
def runCalls (cfg : RateLimitConfig) (client : ClientInfo) :
    List Int → List (Bool × Int × Int) × ClientInfo
  | [] => ([], client)
  | t :: ts =>
    let (r, client1) := allowClient cfg client t
    let (rs, client2) := runCalls cfg client1 ts
    (r :: rs, client2)

/-! ## Store lemmas -/

theorem lookup_setEntry (k k1 : Str) (b : ClientInfo) (st : Store) :
    lookup k (setEntry k1 b st) = if k = k1 then some b else lookup k st := by
  induction st with
  | nil => simp [setEntry, lookup]
  | cons hd tl ih =>
    obtain ⟨k2, b2⟩ := hd
    simp only [setEntry]
    by_cases h1 : k1 = k2
    · subst h1
      rw [if_pos rfl]
      by_cases h2 : k = k1 <;> simp [lookup, h2]
    · rw [if_neg h1]
      by_cases h2 : k = k2
      · subst h2
        have hk : ¬ k = k1 := fun h => h1 h.symm
        simp [lookup, hk]
      · simp [lookup, h2, ih]

theorem setEntry_of_lookup_eq (k : Str) (b : ClientInfo) (st : Store)
    (h : lookup k st = some b) : setEntry k b st = st := by
  induction st with
  | nil => simp [lookup] at h
  | cons hd tl ih =>
    obtain ⟨k2, b2⟩ := hd
    simp only [lookup] at h
    simp only [setEntry]
    by_cases h2 : k = k2
    · rw [if_pos h2] at h
      injection h with hb
      rw [if_pos h2, h2, hb]
    · rw [if_neg h2] at h
      rw [if_neg h2, ih h]

theorem lookup_none_of_not_mem (k : Str) (st : Store)
    (h : k ∉ st.map Prod.fst) : lookup k st = none := by
  induction st with
  | nil => rfl
  | cons hd tl ih =>
    obtain ⟨k2, b2⟩ := hd
    simp only [List.map_cons, List.mem_cons] at h
    push_neg at h
    simp [lookup, h.1, ih h.2]

/-! ## Shape lemmas for the decision path -/

theorem allow_eq (cfg : RateLimitConfig) (st : Store) (k : Str) (tc tn : Int) :
    allow cfg st k tc tn =
      match lookup k st with
      | some b => ((allowClient cfg b tn).1, setEntry k (allowClient cfg b tn).2 st)
      | none =>
        ((allowClient cfg (newClient cfg tc) tn).1,
         setEntry k (allowClient cfg (newClient cfg tc) tn).2
           (setEntry k (newClient cfg tc) st)) := by
  unfold allow getOrCreateClient
  cases lookup k st <;> simp

theorem allowClient_refill (cfg : RateLimitConfig) (client : ClientInfo) (now : Int)
    (hC : 0 < cfg.requestsPerMinute) (hw : cfg.window ≤ now - client.lastRefill) :
    allowClient cfg client now =
      ((true, cfg.requestsPerMinute - 1, now + cfg.window),
       { tokens := cfg.requestsPerMinute - 1, lastRefill := now }) := by
  simp [allowClient, if_pos hw, hC]

theorem allowClient_no_refill (cfg : RateLimitConfig) (client : ClientInfo) (now : Int)
    (hw : ¬ cfg.window ≤ now - client.lastRefill) :
    allowClient cfg client now =
      if 0 < client.tokens then
        ((true, client.tokens - 1, client.lastRefill + cfg.window),
         { tokens := client.tokens - 1, lastRefill := client.lastRefill })
      else
        ((false, 0, client.lastRefill + cfg.window), client) := by
  simp only [allowClient, if_neg hw]

/-! ## C2: untrusted peers cannot spoof their identity via headers -/

/-- C2: when the stripped peer address is not a trusted proxy, `extractIP`
returns that address for every value of the two forwarding headers, so two
requests from the same untrusted peer always resolve to the same key. -/
theorem untrusted_peer_ignores_headers (remoteIP : Str) (tps : List Str)
    (h : isTrustedProxy remoteIP tps = false) :
    (∀ xff xri, extractIP remoteIP xff xri tps = remoteIP)
    ∧ ∀ xff1 xri1 xff2 xri2,
        extractIP remoteIP xff1 xri1 tps = extractIP remoteIP xff2 xri2 tps := by
  refine ⟨fun xff xri => ?_, fun xff1 xri1 xff2 xri2 => ?_⟩
  · simp [extractIP, h]
  · simp [extractIP, h]

/-- Witness for C2 at a concrete untrusted peer and differing headers. -/
theorem untrusted_peer_ignores_headers_witness :
    isTrustedProxy "9.9.9.9".toList ["10.0.0.1".toList] = false
    ∧ extractIP "9.9.9.9".toList "1.1.1.1".toList "2.2.2.2".toList
        ["10.0.0.1".toList] = "9.9.9.9".toList :=
  ⟨by decide,
   (untrusted_peer_ignores_headers "9.9.9.9".toList ["10.0.0.1".toList]
      (by decide)).1 "1.1.1.1".toList "2.2.2.2".toList⟩

/-! ## C5: window expiry refills the bucket before the admit check -/

/-- C5: a request evaluated at `now` with `now - windowStart >= window`
refills the bucket to full capacity with `windowStart = now` before the
admit check, so it is admitted (with `remaining = capacity - 1`) whatever
the previous token count, and the returned reset time is the post-refill
`windowStart + window`. -/
theorem window_expiry_refills_and_admits (cfg : RateLimitConfig) (client : ClientInfo)
    (now : Int) (hC : 0 < cfg.requestsPerMinute)
    (hw : cfg.window ≤ now - client.lastRefill) :
    allowClient cfg client now =
      ((true, cfg.requestsPerMinute - 1, now + cfg.window),
       { tokens := cfg.requestsPerMinute - 1, lastRefill := now }) :=
  allowClient_refill cfg client now hC hw

/-- Witness for C5: capacity 2, window 100, a bucket exhausted at time 0 is
admitted again at time 150. -/
theorem window_expiry_refills_and_admits_witness :
    (0 : Int) < 2 ∧ (100 : Int) ≤ 150 - 0
    ∧ allowClient ⟨2, 100, []⟩ ⟨0, 0⟩ 150 = ((true, 1, 250), ⟨1, 150⟩) :=
  ⟨by decide, by decide,
   window_expiry_refills_and_admits ⟨2, 100, []⟩ ⟨0, 0⟩ 150 (by decide) (by decide)⟩

/-! ## C9: independence of distinct client keys -/

theorem lookup_allow_snd_ne (cfg : RateLimitConfig) (st : Store) (k k1 : Str)
    (tc tn : Int) (hk : k ≠ k1) :
    lookup k (allow cfg st k1 tc tn).2 = lookup k st := by
  rw [allow_eq]
  cases lookup k1 st <;> simp [lookup_setEntry, hk]

theorem allow_fst_congr (cfg : RateLimitConfig) (st1 st2 : Store) (k : Str)
    (tc tn : Int) (h : lookup k st1 = lookup k st2) :
    (allow cfg st1 k tc tn).1 = (allow cfg st2 k tc tn).1 := by
  rw [allow_eq, allow_eq, h]
  cases lookup k st2 <;> simp

/-- C9: an `allow` call for key `k1` leaves every other key's bucket
unchanged (so the key set changes at most by adding `k1`), and therefore
the decision subsequently returned for any other key `k2` is exactly what
it would have been on the original store. -/
theorem distinct_keys_independent (cfg : RateLimitConfig) (st : Store)
    (k1 k2 : Str) (tc tn : Int) (hk : k2 ≠ k1) :
    lookup k2 (allow cfg st k1 tc tn).2 = lookup k2 st
    ∧ (∀ k, k ≠ k1 → lookup k (allow cfg st k1 tc tn).2 = lookup k st)
    ∧ ∀ tc2 tn2,
        (allow cfg (allow cfg st k1 tc tn).2 k2 tc2 tn2).1
          = (allow cfg st k2 tc2 tn2).1 := by
  refine ⟨lookup_allow_snd_ne cfg st k2 k1 tc tn hk,
          fun k hkk => lookup_allow_snd_ne cfg st k k1 tc tn hkk,
          fun tc2 tn2 => allow_fst_congr cfg _ st k2 tc2 tn2
            (lookup_allow_snd_ne cfg st k2 k1 tc tn hk)⟩

/-- Witness for C9: key "a" is driven to exhaustion (capacity 1); key "b"
still gets the same decision as on the untouched store. -/
theorem distinct_keys_independent_witness :
    "b".toList ≠ "a".toList
    ∧ lookup "b".toList (allow ⟨1, 100, []⟩ [] "a".toList 0 0).2 = lookup "b".toList [] :=
  ⟨by decide,
   (distinct_keys_independent ⟨1, 100, []⟩ [] "a".toList "b".toList 0 0 (by decide)).1⟩

/-! ## C10: a denial mutates nothing -/

/-- C10: when `allow` denies a key whose bucket already exists (capacity
positive, tokens non-negative), the store is returned unchanged — the
denied bucket keeps its prior `tokens = 0` and `lastRefill`, no entry is
added or removed — and the reported remaining count is 0. -/
theorem denial_leaves_store_unchanged (cfg : RateLimitConfig) (st : Store)
    (k : Str) (b : ClientInfo) (tc tn : Int)
    (hC : 0 < cfg.requestsPerMinute) (hl : lookup k st = some b)
    (hb : 0 ≤ b.tokens) (hd : (allow cfg st k tc tn).1.1 = false) :
    (allow cfg st k tc tn).2 = st ∧ b.tokens = 0
    ∧ (allow cfg st k tc tn).1.2.1 = 0 := by
  simp only [allow_eq, hl] at hd ⊢
  by_cases hw : cfg.window ≤ tn - b.lastRefill
  · rw [allowClient_refill cfg b tn hC hw] at hd
    simp at hd
  · rw [allowClient_no_refill cfg b tn hw] at hd ⊢
    by_cases ht : 0 < b.tokens
    · rw [if_pos ht] at hd
      simp at hd
    · rw [if_neg ht]
      have h0 : b.tokens = 0 := le_antisymm (not_lt.mp ht) hb
      refine ⟨?_, h0, rfl⟩
      simp only
      rw [setEntry_of_lookup_eq k b st hl]

/-- Witness for C10: capacity 1, an exhausted bucket for "a" at time 0,
denied again at time 50 with the store returned exactly as it was. -/
theorem denial_leaves_store_unchanged_witness :
    (0 : Int) < 1
    ∧ lookup "a".toList [("a".toList, ClientInfo.mk 0 0)] = some (ClientInfo.mk 0 0)
    ∧ (allow ⟨1, 100, []⟩ [("a".toList, ClientInfo.mk 0 0)] "a".toList 50 50).1.1 = false
    ∧ (allow ⟨1, 100, []⟩ [("a".toList, ClientInfo.mk 0 0)] "a".toList 50 50).2
        = [("a".toList, ClientInfo.mk 0 0)] :=
  ⟨by decide, by decide, by decide,
   (denial_leaves_store_unchanged ⟨1, 100, []⟩ [("a".toList, ClientInfo.mk 0 0)]
      "a".toList (ClientInfo.mk 0 0) 50 50 (by decide) (by decide) (by decide)
      (by decide)).1⟩

/-! ## C8: the token count stays in range and moves as specified -/

theorem cleanupPass_mem (cfg : RateLimitConfig) (now : Int) (st : Store)
    (k : Str) (b2 : ClientInfo) :
    lookup k (cleanupPass cfg now st) = some b2 → (k, b2) ∈ st := by
  induction st with
  | nil => simp [cleanupPass, lookup]
  | cons hd tl ih =>
    obtain ⟨k1, b1⟩ := hd
    simp only [cleanupPass]
    by_cases hc : cfg.window * 2 < now - b1.lastRefill
    · rw [if_pos hc]
      intro h
      exact List.mem_cons_of_mem _ (ih h)
    · rw [if_neg hc]
      simp only [lookup]
      by_cases hk : k = k1
      · rw [if_pos hk]
        intro h
        injection h with h
        simp [hk, h]
      · rw [if_neg hk]
        intro h
        exact List.mem_cons_of_mem _ (ih h)

/-- C8: with positive capacity, a lazily created bucket starts at full
capacity; `allowClient` keeps `tokens` in `[0, capacity]`; within a window
(no refill) `tokens` is unchanged by a denial and decremented by exactly 1
by an admit, with `windowStart` untouched; the reset to capacity happens
exactly when a request is evaluated with `now - windowStart >= window`
(leaving `capacity - 1` after the accompanying admit, `windowStart = now`);
and a sweep pass never alters a surviving bucket's fields. -/
theorem tokens_stay_in_range (cfg : RateLimitConfig) (client : ClientInfo) (now : Int)
    (hC : 0 < cfg.requestsPerMinute)
    (hb : 0 ≤ client.tokens ∧ client.tokens ≤ cfg.requestsPerMinute) :
    (newClient cfg now).tokens = cfg.requestsPerMinute
    ∧ (0 ≤ ((allowClient cfg client now).2).tokens
       ∧ ((allowClient cfg client now).2).tokens ≤ cfg.requestsPerMinute)
    ∧ (¬ cfg.window ≤ now - client.lastRefill →
        ((allowClient cfg client now).2).lastRefill = client.lastRefill
        ∧ ((allowClient cfg client now).1.1 = true →
            ((allowClient cfg client now).2).tokens = client.tokens - 1)
        ∧ ((allowClient cfg client now).1.1 = false →
            ((allowClient cfg client now).2).tokens = client.tokens))
    ∧ (cfg.window ≤ now - client.lastRefill →
        ((allowClient cfg client now).2).tokens = cfg.requestsPerMinute - 1
        ∧ ((allowClient cfg client now).2).lastRefill = now
        ∧ (allowClient cfg client now).1.1 = true)
    ∧ ∀ (st : Store) (k : Str) (b2 : ClientInfo),
        lookup k (cleanupPass cfg now st) = some b2 → (k, b2) ∈ st := by
  obtain ⟨hb0, hbC⟩ := hb
  refine ⟨rfl, ?_, ?_, ?_, fun st k b2 => cleanupPass_mem cfg now st k b2⟩
  · by_cases hw : cfg.window ≤ now - client.lastRefill
    · rw [allowClient_refill cfg client now hC hw]
      constructor <;> (simp; try omega)
    · rw [allowClient_no_refill cfg client now hw]
      by_cases ht : 0 < client.tokens
      · rw [if_pos ht]
        constructor <;> (simp; try omega)
      · rw [if_neg ht]
        exact ⟨hb0, hbC⟩
  · intro hw
    rw [allowClient_no_refill cfg client now hw]
    by_cases ht : 0 < client.tokens
    · rw [if_pos ht]
      simp
    · rw [if_neg ht]
      simp
  · intro hw
    rw [allowClient_refill cfg client now hC hw]
    simp

/-- Witness for C8: capacity 3, a bucket holding 2 tokens evaluated inside
its window. -/
theorem tokens_stay_in_range_witness :
    (0 : Int) < 3 ∧ ((0 : Int) ≤ 2 ∧ (2 : Int) ≤ 3)
    ∧ 0 ≤ ((allowClient ⟨3, 100, []⟩ ⟨2, 0⟩ 50).2).tokens
    ∧ ((allowClient ⟨3, 100, []⟩ ⟨2, 0⟩ 50).2).tokens ≤ 3 :=
  ⟨by decide, by decide,
   (tokens_stay_in_range ⟨3, 100, []⟩ ⟨2, 0⟩ 50 (by decide) (by decide)).2.1⟩

/-! ## C7: the sweep removes exactly the stale entries -/

theorem cleanupPass_lookup_none (cfg : RateLimitConfig) (now : Int) (st : Store)
    (k : Str) (h : lookup k st = none) :
    lookup k (cleanupPass cfg now st) = none := by
  induction st with
  | nil => rfl
  | cons hd tl ih =>
    obtain ⟨k1, b1⟩ := hd
    simp only [lookup] at h
    by_cases hk : k = k1
    · rw [if_pos hk] at h
      exact absurd h (by simp)
    · rw [if_neg hk] at h
      simp only [cleanupPass]
      by_cases hc : cfg.window * 2 < now - b1.lastRefill
      · rw [if_pos hc]
        exact ih h
      · rw [if_neg hc]
        simp only [lookup, if_neg hk]
        exact ih h

/-- C7: under distinct keys, one sweep pass at time `now` removes exactly
the entries with `now - windowStart > 2 * window`; every other entry is
still present with the same bucket value, and no entry appears that was
not there before. -/
theorem sweep_removes_exactly_stale (cfg : RateLimitConfig) (now : Int)
    (st : Store) (k : Str) (hnd : (st.map Prod.fst).Nodup) :
    (∀ b, lookup k st = some b →
        (cfg.window * 2 < now - b.lastRefill →
          lookup k (cleanupPass cfg now st) = none)
        ∧ (¬ cfg.window * 2 < now - b.lastRefill →
          lookup k (cleanupPass cfg now st) = some b))
    ∧ (lookup k st = none → lookup k (cleanupPass cfg now st) = none) := by
  refine ⟨?_, cleanupPass_lookup_none cfg now st k⟩
  induction st with
  | nil => intro b h; simp [lookup] at h
  | cons hd tl ih =>
    obtain ⟨k1, b1⟩ := hd
    obtain ⟨hnd1, hnd2⟩ := List.nodup_cons.mp hnd
    intro b h
    simp only [lookup] at h
    by_cases hk : k = k1
    · rw [if_pos hk] at h
      injection h with h
      subst h
      subst hk
      refine ⟨fun hc => ?_, fun hc => ?_⟩
      · simp only [cleanupPass, if_pos hc]
        exact cleanupPass_lookup_none cfg now tl k (lookup_none_of_not_mem k tl hnd1)
      · simp [cleanupPass, if_neg hc, lookup]
    · rw [if_neg hk] at h
      have ihm := ih hnd2 b h
      refine ⟨fun hc => ?_, fun hc => ?_⟩
      · by_cases hc1 : cfg.window * 2 < now - b1.lastRefill
        · simp only [cleanupPass, if_pos hc1]
          exact ihm.1 hc
        · simp only [cleanupPass, if_neg hc1, lookup, if_neg hk]
          exact ihm.1 hc
      · by_cases hc1 : cfg.window * 2 < now - b1.lastRefill
        · simp only [cleanupPass, if_pos hc1]
          exact ihm.2 hc
        · simp only [cleanupPass, if_neg hc1, lookup, if_neg hk]
          exact ihm.2 hc

/-- Witness for C7: window 100, sweep at time 500 removes the entry idle
since 0 (idle 500 > 200) and keeps the one refreshed at 400 unchanged. -/
theorem sweep_removes_exactly_stale_witness :
    ([("a".toList, ClientInfo.mk 1 0), ("b".toList, ClientInfo.mk 1 400)].map
        Prod.fst).Nodup
    ∧ lookup "a".toList [("a".toList, ClientInfo.mk 1 0),
        ("b".toList, ClientInfo.mk 1 400)] = some (ClientInfo.mk 1 0)
    ∧ (100 : Int) * 2 < 500 - 0
    ∧ lookup "a".toList (cleanupPass ⟨1, 100, []⟩ 500
        [("a".toList, ClientInfo.mk 1 0), ("b".toList, ClientInfo.mk 1 400)]) = none :=
  ⟨by decide, by decide, by decide,
   ((sweep_removes_exactly_stale ⟨1, 100, []⟩ 500
      [("a".toList, ClientInfo.mk 1 0), ("b".toList, ClientInfo.mk 1 400)]
      "a".toList (by decide)).1 (ClientInfo.mk 1 0) (by decide)).1 (by decide)⟩

/-! ## C1: exactly `capacity` admits inside one window, then denial -/

theorem runCalls_within_window (cfg : RateLimitConfig) (t0 : Int) :
    ∀ (ts : List Int) (n : Int),
      (∀ t ∈ ts, t - t0 < cfg.window) → (ts.length : Int) ≤ n →
      runCalls cfg ⟨n, t0⟩ ts =
        ((List.range ts.length).map
           (fun (i : Nat) => (true, n - 1 - (i : Int), t0 + cfg.window)),
         ⟨n - ts.length, t0⟩) := by
  intro ts
  induction ts with
  | nil =>
    intro n h1 h2
    simp [runCalls]
  | cons t ts ih =>
    intro n h1 h2
    have hw : ¬ cfg.window ≤ t - t0 := not_le.mpr (h1 t (List.mem_cons_self t ts))
    have hn : (0 : Int) < n := by
      simp only [List.length_cons] at h2
      push_cast at h2
      omega
    simp only [runCalls]
    rw [allowClient_no_refill cfg ⟨n, t0⟩ t hw]
    rw [if_pos hn]
    rw [ih (n - 1) (fun u hu => h1 u (List.mem_cons_of_mem t hu))
          (by simp only [List.length_cons] at h2; push_cast at h2 ⊢; omega)]
    simp only [List.length_cons, Prod.mk.injEq]
    refine ⟨?_, ?_⟩
    · rw [List.range_succ_eq_map, List.map_cons, List.map_map]
      congr 1
      · norm_num
      · apply List.map_congr_left
        intro i _
        simp only [Function.comp_apply, Prod.mk.injEq]
        push_cast
        refine ⟨trivial, by ring, trivial⟩
    · refine congrArg₂ ClientInfo.mk ?_ rfl
      push_cast
      ring

/-- C1: starting from a full bucket (capacity `C > 0`, window start `t0`),
a sequence of `C` `allow` calls all evaluated inside the window is admitted
with `remaining` running `C-1, C-2, ..., 0` in order (each reset time being
`t0 + window`), and one further call inside the same window is denied with
`remaining = 0`. -/
theorem capacity_admits_then_denies (cfg : RateLimitConfig) (t0 : Int)
    (ts : List Int) (tExtra : Int) (_hC : 0 < cfg.requestsPerMinute)
    (hlen : (ts.length : Int) = cfg.requestsPerMinute)
    (hin : ∀ t ∈ ts, t - t0 < cfg.window)
    (hex : tExtra - t0 < cfg.window) :
    (runCalls cfg ⟨cfg.requestsPerMinute, t0⟩ ts).1 =
      (List.range ts.length).map
        (fun (i : Nat) => (true, cfg.requestsPerMinute - 1 - (i : Int), t0 + cfg.window))
    ∧ (allowClient cfg (runCalls cfg ⟨cfg.requestsPerMinute, t0⟩ ts).2 tExtra).1
        = (false, 0, t0 + cfg.window) := by
  have h := runCalls_within_window cfg t0 ts cfg.requestsPerMinute hin (le_of_eq hlen)
  refine ⟨by rw [h], ?_⟩
  rw [h]
  have hz : cfg.requestsPerMinute - (ts.length : Int) = 0 := by omega
  rw [hz]
  have hw : ¬ cfg.window ≤ tExtra - t0 := not_le.mpr hex
  rw [allowClient_no_refill cfg ⟨0, t0⟩ tExtra hw]
  norm_num

/-- Witness for C1: capacity 2, window 100, calls at times 10 and 20 admit
with remaining 1 then 0, and a further call at time 30 is denied. -/
theorem capacity_admits_then_denies_witness :
    (0 : Int) < 2 ∧ ((2 : Nat) : Int) = 2
    ∧ (∀ t ∈ [(10 : Int), 20], t - 0 < 100) ∧ (30 : Int) - 0 < 100
    ∧ ((runCalls ⟨2, 100, []⟩ ⟨2, 0⟩ [10, 20]).1 =
        (List.range 2).map (fun (i : Nat) => (true, 2 - 1 - (i : Int), 0 + 100))
       ∧ (allowClient ⟨2, 100, []⟩ (runCalls ⟨2, 100, []⟩ ⟨2, 0⟩ [10, 20]).2 30).1
          = (false, 0, 0 + 100)) :=
  ⟨by decide, by decide, by decide, by decide,
   capacity_admits_then_denies ⟨2, 100, []⟩ 0 [10, 20] 30 (by decide) (by decide)
     (by decide) (by decide)⟩

/-! ## String lemmas for the header resolver -/

theorem mem_splitAndTrim_ne_nil (s : Str) (sep : Char) :
    ∀ x ∈ splitAndTrim s sep, x ≠ [] := by
  intro x hx
  have := (List.mem_filter.mp hx).2
  simpa [List.isEmpty_iff] using this

theorem splitStringAux_all_space (sep : Char) :
    ∀ (s acc : Str), (∀ c ∈ s, isSpaceChar c = true ∨ c = sep) →
      (∀ c ∈ acc, isSpaceChar c = true) →
      ∀ seg ∈ splitStringAux sep s acc, ∀ c ∈ seg, isSpaceChar c = true := by
  intro s
  induction s with
  | nil =>
    intro acc _ hacc seg hseg c hc
    simp only [splitStringAux, List.mem_singleton] at hseg
    subst hseg
    exact hacc c (List.mem_reverse.mp hc)
  | cons d ds ih =>
    intro acc hs hacc seg hseg c hc
    simp only [splitStringAux] at hseg
    by_cases hd : d = sep
    · rw [if_pos hd] at hseg
      rcases List.mem_cons.mp hseg with h | h
      · subst h
        exact hacc c (List.mem_reverse.mp hc)
      · exact ih [] (fun e he => hs e (List.mem_cons_of_mem d he))
          (by simp) seg h c hc
    · rw [if_neg hd] at hseg
      have hds : isSpaceChar d = true := by
        rcases hs d (List.mem_cons_self d ds) with h | h
        · exact h
        · exact absurd h hd
      exact ih (d :: acc) (fun e he => hs e (List.mem_cons_of_mem d he))
        (fun e he => by
          rcases List.mem_cons.mp he with h | h
          · rw [h]; exact hds
          · exact hacc e h) seg hseg c hc

theorem trimSpace_eq_nil_of_all_space (s : Str)
    (h : ∀ c ∈ s, isSpaceChar c = true) : trimSpace s = [] := by
  unfold trimSpace
  have h1 : s.dropWhile isSpaceChar = [] := by
    rw [List.dropWhile_eq_nil_iff]
    exact h
  rw [h1]
  rfl

theorem splitAndTrim_all_space_comma (s : Str)
    (h : ∀ c ∈ s, isSpaceChar c = true ∨ c = ',') :
    splitAndTrim s ',' = [] := by
  unfold splitAndTrim
  rw [List.filter_eq_nil_iff]
  intro a ha
  obtain ⟨seg, hseg, rfl⟩ := List.mem_map.mp ha
  have hall : ∀ c ∈ seg, isSpaceChar c = true := by
    unfold splitString at hseg
    by_cases hs : s = []
    · rw [if_pos hs] at hseg
      exact absurd hseg (List.not_mem_nil seg)
    · rw [if_neg hs] at hseg
      exact splitStringAux_all_space ',' s [] h (by simp) seg hseg
  rw [trimSpace_eq_nil_of_all_space seg hall]
  simp

theorem firstForwarded_eq_none (xff : Str)
    (h : splitAndTrim xff ',' = []) : firstForwarded xff = none := by
  unfold firstForwarded
  rw [h]
  split <;> rfl

theorem firstForwarded_eq_some (xff ip0 : Str) (rest : List Str)
    (h : splitAndTrim xff ',' = ip0 :: rest) : firstForwarded xff = some ip0 := by
  have hx : xff ≠ [] := by
    intro hnil
    rw [hnil] at h
    simp [splitAndTrim, splitString] at h
  have h0 : ip0 ≠ [] :=
    mem_splitAndTrim_ne_nil xff ',' ip0 (h ▸ List.mem_cons_self ip0 rest)
  unfold firstForwarded
  rw [if_pos hx, h]
  exact if_pos h0

theorem firstForwarded_some_ne_nil (xff ip0 : Str)
    (h : firstForwarded xff = some ip0) : ip0 ≠ [] := by
  unfold firstForwarded at h
  split at h
  · split at h
    · split at h
      · injection h with h
        subst h
        assumption
      · exact absurd h (by simp)
    · exact absurd h (by simp)
  · exact absurd h (by simp)

/-! ## C6: resolution order for requests arriving via a trusted proxy -/

/-- C6: for a trusted peer, if splitting the forwarded-for header on
commas (trimming whitespace, discarding empty segments) yields at least
one segment, the key is the first segment; otherwise the key is the
real-IP header when it is non-empty, and the raw peer IP when it is not. -/
theorem trusted_header_resolution (remoteIP xff xri : Str) (tps : List Str)
    (ht : isTrustedProxy remoteIP tps = true) :
    (∀ ip0 rest, splitAndTrim xff ',' = ip0 :: rest →
        extractIP remoteIP xff xri tps = ip0)
    ∧ (splitAndTrim xff ',' = [] →
        (xri ≠ [] → extractIP remoteIP xff xri tps = xri)
        ∧ (xri = [] → extractIP remoteIP xff xri tps = remoteIP)) := by
  refine ⟨fun ip0 rest h => ?_, fun h => ⟨fun hri => ?_, fun hri => ?_⟩⟩
  · rw [extractIP, ht, firstForwarded_eq_some xff ip0 rest h]
    rfl
  · rw [extractIP, ht, firstForwarded_eq_none xff h]
    simp [hri]
  · rw [extractIP, ht, firstForwarded_eq_none xff h]
    simp [hri]

/-- Witness for C6: trusted proxy 10.0.0.1; the left-most forwarded entry
becomes the key. -/
theorem trusted_header_resolution_witness :
    isTrustedProxy "10.0.0.1".toList ["10.0.0.1".toList] = true
    ∧ splitAndTrim " 1.1.1.1 , 2.2.2.2".toList ','
        = ["1.1.1.1".toList, "2.2.2.2".toList]
    ∧ extractIP "10.0.0.1".toList " 1.1.1.1 , 2.2.2.2".toList "3.3.3.3".toList
        ["10.0.0.1".toList] = "1.1.1.1".toList :=
  ⟨by decide, by decide,
   (trusted_header_resolution "10.0.0.1".toList " 1.1.1.1 , 2.2.2.2".toList
      "3.3.3.3".toList ["10.0.0.1".toList] (by decide)).1
     "1.1.1.1".toList ["2.2.2.2".toList] (by decide)⟩

/-! ## C4: blank headers and the fall-through to the raw peer IP -/

/-- C4 fails as stated: a whitespace-only X-Real-IP header is **not**
trimmed by the code; `extractIP` returns it verbatim instead of falling
through to the raw peer IP.  Concretely, for trusted peer 10.0.0.1 with
X-Forwarded-For " , " (whitespace and commas only) and X-Real-IP " "
(whitespace only), the resolved key is " ", not 10.0.0.1. -/
theorem blank_real_ip_returned_verbatim :
    isTrustedProxy "10.0.0.1".toList ["10.0.0.1".toList] = true
    ∧ (∀ c ∈ " , ".toList, isSpaceChar c = true ∨ c = ',')
    ∧ (∀ c ∈ " ".toList, isSpaceChar c = true)
    ∧ extractIP "10.0.0.1".toList " , ".toList " ".toList ["10.0.0.1".toList]
        = " ".toList
    ∧ extractIP "10.0.0.1".toList " , ".toList " ".toList ["10.0.0.1".toList]
        ≠ "10.0.0.1".toList := by
  refine ⟨by decide, by decide, by decide, by decide, by decide⟩

/-- C4 (amended): for a trusted peer, a forwarded-for header containing
only whitespace and commas (or absent) falls through, and when the real-IP
header is absent (empty) the key is the raw peer IP; a whitespace-only
real-IP header, however, is returned verbatim as the key (it is not
trimmed).  The resolver never returns an empty key as long as the raw peer
IP is non-empty. -/
theorem trusted_blank_headers_fall_through (remoteIP xff xri : Str)
    (tps : List Str) :
    (isTrustedProxy remoteIP tps = true →
      (∀ c ∈ xff, isSpaceChar c = true ∨ c = ',') → xri = [] →
      extractIP remoteIP xff xri tps = remoteIP)
    ∧ (remoteIP ≠ [] → extractIP remoteIP xff xri tps ≠ []) := by
  constructor
  · intro ht hws hri
    rw [extractIP, ht, firstForwarded_eq_none xff (splitAndTrim_all_space_comma xff hws)]
    simp [hri]
  · intro hr
    rw [extractIP]
    by_cases ht : isTrustedProxy remoteIP tps
    · rw [ht]
      simp only [Bool.not_true, Bool.false_eq_true, if_false]
      cases hf : firstForwarded xff with
      | some ip0 => exact firstForwarded_some_ne_nil xff ip0 hf
      | none =>
        by_cases hri : xri = []
        · simp [hri, hr]
        · simp [hri]
    · simp only [Bool.not_eq_true] at ht
      rw [ht]
      simpa using hr

/-- Witness for C4 (amended): trusted peer, blank forwarded-for, absent
real-IP resolves to the raw peer IP. -/
theorem trusted_blank_headers_fall_through_witness :
    isTrustedProxy "10.0.0.1".toList ["10.0.0.1".toList] = true
    ∧ (∀ c ∈ " , ".toList, isSpaceChar c = true ∨ c = ',')
    ∧ extractIP "10.0.0.1".toList " , ".toList "".toList ["10.0.0.1".toList]
        = "10.0.0.1".toList :=
  ⟨by decide, by decide,
   (trusted_blank_headers_fall_through "10.0.0.1".toList " , ".toList
      "".toList ["10.0.0.1".toList]).1 (by decide) (by decide) (by decide)⟩

/-! ## C3: the denial response -/

/-- C3 fails as stated: the code computes the Retry-After value with
`int(time.Until(resetTime).Seconds())`, which truncates toward zero, not
`ceil(resetAt - now)`.  Concretely: capacity 1, window 60s, an exhausted
bucket with `windowStart = 0`, denial evaluated at 0.1s with the
retry-after clock read at 0.5s, so `resetAt - now = 59.5s`: the header
carries 59 while the ceiling is 60.  (Status 429 does hold here.) -/
theorem retry_after_truncates_not_ceils :
    (rateLimitMiddleware ⟨1, 60000000000, []⟩
        [("1.2.3.4".toList, ClientInfo.mk 0 0)] "1.2.3.4".toList "".toList
        "".toList 100000000 100000000 500000000).1.status = 429
    ∧ (rateLimitMiddleware ⟨1, 60000000000, []⟩
        [("1.2.3.4".toList, ClientInfo.mk 0 0)] "1.2.3.4".toList "".toList
        "".toList 100000000 100000000 500000000).1.retryAfter
        = some (intToStr 59)
    ∧ specCeilSeconds (60000000000 - 500000000) = 60
    ∧ intToStr 59 ≠ intToStr 60 := by
  refine ⟨by decide, by decide, by decide, by decide⟩

/-- C3 (amended): on every denial the middleware responds with status 429,
sets a Retry-After header holding `resetAt - now` in seconds truncated
toward zero (not the ceiling), writes a plain-text body naming that same
retry interval, and does not invoke the downstream handler. -/
theorem denial_response (cfg : RateLimitConfig) (st : Store) (remoteIP xff xri : Str)
    (tCreate tNow tRetry : Int)
    (hd : (allow cfg st (extractIP remoteIP xff xri cfg.trustedProxies)
            tCreate tNow).1.1 = false) :
    (rateLimitMiddleware cfg st remoteIP xff xri tCreate tNow tRetry).1.status = 429
    ∧ (rateLimitMiddleware cfg st remoteIP xff xri tCreate tNow tRetry).1.retryAfter
        = some (intToStr (goTruncSeconds
            ((allow cfg st (extractIP remoteIP xff xri cfg.trustedProxies)
                tCreate tNow).1.2.2 - tRetry)))
    ∧ (rateLimitMiddleware cfg st remoteIP xff xri tCreate tNow tRetry).1.body
        = denialBody (goTruncSeconds
            ((allow cfg st (extractIP remoteIP xff xri cfg.trustedProxies)
                tCreate tNow).1.2.2 - tRetry))
    ∧ (rateLimitMiddleware cfg st remoteIP xff xri tCreate tNow tRetry).1.nextCalled
        = false := by
  rcases happ : allow cfg st (extractIP remoteIP xff xri cfg.trustedProxies)
      tCreate tNow with ⟨⟨allowed, remaining, reset⟩, st1⟩
  rw [happ] at hd
  simp only at hd
  subst hd
  simp [rateLimitMiddleware, happ]

/-- Witness for C3 (amended): the concrete denial above, driven through
the amended theorem. -/
theorem denial_response_witness :
    (allow ⟨1, 60000000000, []⟩ [("1.2.3.4".toList, ClientInfo.mk 0 0)]
        (extractIP "1.2.3.4".toList "".toList "".toList []) 100000000
        100000000).1.1 = false
    ∧ (rateLimitMiddleware ⟨1, 60000000000, []⟩
        [("1.2.3.4".toList, ClientInfo.mk 0 0)] "1.2.3.4".toList "".toList
        "".toList 100000000 100000000 500000000).1.status = 429 :=
  ⟨by decide,
   (denial_response ⟨1, 60000000000, []⟩ [("1.2.3.4".toList, ClientInfo.mk 0 0)]
      "1.2.3.4".toList "".toList "".toList 100000000 100000000 500000000
      (by decide)).1⟩

end RateLimit
